import Mathlib

/-!
Verification of the HEKTOR_VS vector-database core against its
natural-language specification.

The development shallowly embeds the C++ sources:
  * `src/core/distance.cpp`        — distance kernels (floats idealized as ℝ);
  * `src/index/flat.cpp`           — the brute-force flat index;
  * `src/distributed/sharding_manager.cpp`     — shard routing;
  * `src/distributed/replication_manager.cpp`  — replication and failover;
  * `src/distributed/distributed_database.cpp` — the facade;
  * `src/hybrid/bm25_engine.cpp`   — the BM25 lexical engine.

IEEE-754 floats are idealized as exact real (or, where no square root or
logarithm occurs, rational) arithmetic.  `std::unordered_map` containers
are modelled as association lists carrying the map's (unspecified)
iteration order, or — where only point lookups occur — as total functions.
`std::priority_queue` is modelled by its observable behaviour: a list kept
sorted by the queue's comparator, whose head is the top element.
-/

namespace VDB

/-! ## Distance kernels (`src/core/distance.cpp`)

The scalar fallback implementations are embedded; over ℝ the AVX2 variants
compute the same sums (lane splitting and fused multiply-add are exact in
real arithmetic), so the build-time dispatch collapses. -/

/-- `scalar::dot_product`: running sum of pointwise products. -/
noncomputable def dot_product (a b : List ℝ) : ℝ :=
  (a.zip b).foldl (fun s p => s + p.1 * p.2) 0

/-- `scalar::squared_l2`: running sum of squared differences. -/
noncomputable def squared_l2 (a b : List ℝ) : ℝ :=
  (a.zip b).foldl (fun s p => s + (p.1 - p.2) * (p.1 - p.2)) 0

/-- `scalar::norm`: square root of the running sum of squares. -/
noncomputable def normL2 (a : List ℝ) : ℝ :=
  Real.sqrt (a.foldl (fun s x => s + x * x) 0)

/-- `euclidean_distance`: `std::sqrt(squared_l2(a, b, n))`. -/
noncomputable def euclidean_distance (a b : List ℝ) : ℝ :=
  Real.sqrt (squared_l2 a b)

/-- `cosine_similarity` (distance.cpp lines 180-196): dot product over the
product of norms, guarded so that a near-zero magnitude on either side
returns exactly 0. -/
noncomputable def cosine_similarity (a b : List ℝ) : ℝ :=
  let dot := dot_product a b
  let norm_a := normL2 a
  let norm_b := normL2 b
  if norm_a < 1e-12 ∨ norm_b < 1e-12 then 0 else dot / (norm_a * norm_b)

/-- `cosine_distance = 1.0f - cosine_similarity`. -/
noncomputable def cosine_distance (a b : List ℝ) : ℝ :=
  1 - cosine_similarity a b

/-! ## Flat index (`src/index/flat.cpp`) -/

/-- `DistanceType` (alias of `DistanceMetric`): the three metrics the flat
index dispatches on. -/
inductive DistanceType
  | Cosine
  | Euclidean
  | DotProduct
deriving DecidableEq

/-- `SearchResult`: id, distance and mapped score. -/
structure SearchResult where
  id : ℕ
  distance : ℝ
  score : ℝ

/-- State of a `FlatIndex`: fixed dimension, configured metric, stored
vectors in insertion order, and the parallel id list. -/
structure FlatState where
  dimension : ℕ
  distance_type : DistanceType
  vectors_ : List (List ℝ)
  ids_ : List ℕ

/-- The metric switch inside `FlatIndex::search` (flat.cpp lines 44-54). -/
noncomputable def flatDist (dt : DistanceType) (query v : List ℝ) : ℝ :=
  match dt with
  | .Cosine => cosine_distance query v
  | .Euclidean => euclidean_distance query v
  | .DotProduct => -(dot_product query v)

/-- Push onto the `std::priority_queue<pair, vector, greater<>>`, modelled
as a list kept ascending under the lexicographic pair order (so the head
is the queue's top, i.e. its minimum). -/
noncomputable def pqPush (x : ℝ × ℕ) : List (ℝ × ℕ) → List (ℝ × ℕ)
  | [] => [x]
  | y :: ys =>
      if x.1 < y.1 ∨ (x.1 = y.1 ∧ x.2 < y.2) then x :: y :: ys else y :: pqPush x ys

/-- One iteration of the scan loop in `FlatIndex::search` (flat.cpp lines
56-61): push while fewer than k elements are held, otherwise pop the top
(the minimum, since the comparator is `std::greater`) and push whenever
the new distance is below the top's distance.  When `k = 0` the C++ code
reads `pq.top()` of an empty queue, which is undefined; the model leaves
the empty queue unchanged there. -/
noncomputable def flatHeapStep (k : ℕ) (pq : List (ℝ × ℕ)) (di : ℝ × ℕ) : List (ℝ × ℕ) :=
  if pq.length < k then pqPush di pq
  else
    match pq with
    | [] => pq
    | top :: rest => if di.1 < top.1 then pqPush di rest else top :: rest

/-- `FlatIndex::search` (flat.cpp lines 33-85): dimension guard, linear
scan feeding the priority queue, extraction in pop order (ascending under
the queue's order), score mapping, and the final `std::reverse`. -/
noncomputable def flat_search (st : FlatState) (query : List ℝ) (k : ℕ) : List SearchResult :=
  if query.length ≠ st.dimension then []
  else
    let dists := (List.range st.vectors_.length).map
      (fun i => (flatDist st.distance_type query (st.vectors_.getD i []), i))
    let pq := dists.foldl (flatHeapStep k) []
    (pq.map (fun di =>
      ({ id := st.ids_.getD di.2 0, distance := di.1,
         score := if st.distance_type = DistanceType.Cosine then 1 - di.1
                  else 1 / (1 + di.1) } : SearchResult))).reverse

/-- Flat index holding, in dimension 1 under the dot-product metric, the
vectors [5], [3], [4], [1] with ids 11, 12, 13, 14.  Against the query
[-1] their distances are 5, 3, 4 and 1. -/
noncomputable def exFlat : FlatState :=
  { dimension := 1, distance_type := .DotProduct,
    vectors_ := [[5], [3], [4], [1]], ids_ := [11, 12, 13, 14] }

/-! ## Sharding manager (`src/distributed/sharding_manager.cpp`) -/

/-- `ShardingStrategy` (declared in the missing `replication.hpp`; the
four cases are those the switch in `get_shard_for_id` handles). -/
inductive ShardingStrategy
  | None
  | Hash
  | Range
  | Consistent
deriving DecidableEq

/-- A shard descriptor: id and the `[start_range, end_range)` interval
used by range sharding. -/
structure ShardConfig where
  shard_id : String
  start_range : ℕ
  end_range : ℕ
deriving DecidableEq

/-- Sharding configuration: strategy plus the ordered shard table. -/
structure ShardingConfig where
  strategy : ShardingStrategy
  shards : List ShardConfig
deriving DecidableEq

/-- A virtual node on the consistent-hashing ring. -/
structure VirtualNode where
  shard_id : String
  virtual_node_index : ℕ
  hash_value : ℕ
deriving DecidableEq

/-- Reduce modulo 2^64, the carrier of the C++ `uint64_t` arithmetic. -/
def u64 (n : ℕ) : ℕ := n % 2 ^ 64

/-- `Impl::hash_id` (sharding_manager.cpp lines 65-74): xor-shift-multiply
mix over `uint64_t`; right shift by 33 is division by 2^33. -/
def hash_id (id : ℕ) : ℕ :=
  let h1 := u64 (Nat.xor (u64 id) (u64 id / 2 ^ 33))
  let h2 := u64 (h1 * 0xff51afd7ed558ccd)
  let h3 := u64 (Nat.xor h2 (h2 / 2 ^ 33))
  let h4 := u64 (h3 * 0xc4ceb9fe1a85ec53)
  u64 (Nat.xor h4 (h4 / 2 ^ 33))

/-- `Impl::find_shard_hash`: hash modulo the shard count. -/
def find_shard_hash (shards : List ShardConfig) (id : ℕ) : String :=
  match shards with
  | [] => ""
  | s0 :: _ => (shards.getD (hash_id id % shards.length) s0).shard_id

/-- `Impl::find_shard_range` (sharding_manager.cpp lines 132-141): first
shard whose `[start_range, end_range)` interval contains the id; when no
range matches, default to the first shard. -/
def find_shard_range (shards : List ShardConfig) (id : ℕ) : String :=
  match shards.find? (fun sh => decide (sh.start_range ≤ id) && decide (id < sh.end_range)) with
  | some sh => sh.shard_id
  | none => match shards with
            | [] => ""
            | s0 :: _ => s0.shard_id

/-- `Impl::find_shard_consistent`: `std::lower_bound` on the ring (sorted
ascending by hash) is the first virtual node with `hash_value ≥ hash`,
wrapping to the front when none exists. -/
def find_shard_consistent (ring : List VirtualNode) (shards : List ShardConfig) (hash : ℕ) : String :=
  match ring with
  | [] => match shards with
          | [] => ""
          | s0 :: _ => s0.shard_id
  | v0 :: _ =>
    match ring.find? (fun v => decide (hash ≤ v.hash_value)) with
    | some v => v.shard_id
    | none => v0.shard_id

/-- `ShardingManager::get_shard_for_id` (sharding_manager.cpp lines
225-260): error on an empty shard table, otherwise dispatch on the
strategy.  The consistent-hashing ring (built elsewhere) is passed in. -/
def get_shard_for_id (cfg : ShardingConfig) (ring : List VirtualNode) (id : ℕ) :
    Except String String :=
  match cfg.shards with
  | [] => .error "No shards configured"
  | s0 :: _ =>
    .ok (match cfg.strategy with
      | .None => s0.shard_id
      | .Hash => find_shard_hash cfg.shards id
      | .Range => find_shard_range cfg.shards id
      | .Consistent => find_shard_consistent ring cfg.shards (hash_id id))

/-- Two-shard range table covering [0, 10) and [10, 20); ids at and above
20 fall in no declared range. -/
def exShardCfg : ShardingConfig :=
  { strategy := .Range,
    shards := [⟨"shard1", 0, 10⟩, ⟨"shard2", 10, 20⟩] }

/-! ## Replication manager (`src/distributed/replication_manager.cpp`)

`NodeState`'s monitoring fields (heartbeat timestamp, lag estimate, and
the two operation counters) are written only by the heartbeat thread and
by `replicate_to_node`, whose network and clock effects are modelled as
per-replica acknowledgment outcomes; the fields the modelled operations
read are the node configuration and the health flag. -/

/-- Node configuration (declared in the missing `replication.hpp`; fields
as used by the manager and its tests). -/
structure NodeConfig where
  node_id : String
  host : String
  port : ℕ
  is_primary : Bool
  priority : Int
deriving DecidableEq

/-- Mutable per-node state: configuration plus the health flag. -/
structure NodeState where
  config : NodeConfig
  is_healthy : Bool
deriving DecidableEq

/-- `ReplicationMode` with the four durability modes. -/
inductive ReplicationMode
  | None
  | Async
  | SemiSync
  | Sync
deriving DecidableEq

/-- Replication configuration as read by the manager. -/
structure ReplicationConfig where
  mode : ReplicationMode
  min_replicas : ℕ
  sync_timeout_ms : ℕ
  heartbeat_interval_ms : ℕ
deriving DecidableEq

/-- Metadata: a map from short string keys to scalar values, carried
opaquely by the operations modelled here. -/
abbrev Metadata := List (String × String)

/-- `ReplicationOperation::Type`. -/
inductive RepOpType
  | Add
  | Remove
  | Update
deriving DecidableEq

/-- A queued replication operation (floats idealized as ℚ). -/
structure ReplicationOperation where
  type : RepOpType
  id : ℕ
  vector : List ℚ
  metadata : Metadata
  timestamp : ℕ
  source_node : String
deriving DecidableEq

/-- State of `ReplicationManager::Impl`: configuration, the node table in
its (unspecified) `std::unordered_map` iteration order, the pending
operation queue, the current primary and the running flag. -/
structure ManagerState where
  config : ReplicationConfig
  nodes : List (String × NodeState)
  pending_operations : List ReplicationOperation
  current_primary : String
  running : Bool
deriving DecidableEq

/-- The body of the selection loop of `Impl::trigger_failover_internal`
(replication_manager.cpp lines 298-303): keep a node whose health flag is
set and whose priority strictly exceeds the best seen so far. -/
def selectStep (acc : String × Int) (n : String × NodeState) : String × Int :=
  if n.2.is_healthy = true ∧ acc.2 < n.2.config.priority then (n.1, n.2.config.priority)
  else acc

/-- The selection loop of `Impl::trigger_failover_internal`
(replication_manager.cpp lines 293-303): scan every node, starting from
the empty id and priority -1. -/
def selectNewPrimary (nodes : List (String × NodeState)) : String × Int :=
  nodes.foldl selectStep ("", -1)

/-- `ReplicationManager::trigger_failover` (lines 558-562) delegating to
`trigger_failover_internal` (lines 293-316): promote the selected node
unless none was found or it is already the primary.  The failover
callback carries no state modelled here. -/
def trigger_failover (s : ManagerState) : ManagerState :=
  let sel := selectNewPrimary s.nodes
  if sel.1 ≠ "" ∧ sel.1 ≠ s.current_primary then { s with current_primary := sel.1 } else s

/-- Modelled from the spec: the failover target described by the
specification — the healthy replica (node other than the current primary)
with the highest priority, ties broken by lowest node id; `none` when no
healthy replica exists.  `trigger_failover` is compared against this. -/
def specFailoverTarget (s : ManagerState) : Option String :=
  match s.nodes.filter (fun n => decide (n.1 ≠ s.current_primary) && n.2.is_healthy) with
  | [] => none
  | r0 :: rest =>
    some ((rest.foldl
      (fun best n =>
        if best.2.config.priority < n.2.config.priority ∨
            (best.2.config.priority = n.2.config.priority ∧ n.1 < best.1) then n
        else best) r0).1)

/-- `ReplicationManager::replicate_add` (lines 406-430): refuse when the
manager is stopped, return immediately in mode `None`, otherwise build
the operation, push it onto the pending queue and return success.  The
wall-clock timestamp is passed in. -/
def replicate_add (s : ManagerState) (id : ℕ) (vector : List ℚ) (metadata : Metadata)
    (timestamp : ℕ) : Except String Unit × ManagerState :=
  if s.running = false then (.error "ReplicationManager not running", s)
  else if s.config.mode = ReplicationMode.None then (.ok (), s)
  else
    (.ok (),
      { s with pending_operations := s.pending_operations ++
          [{ type := .Add, id := id, vector := vector, metadata := metadata,
             timestamp := timestamp, source_node := s.current_primary }] })

/-- `ReplicationManager::replicate_remove` (lines 432-454): as
`replicate_add` with an operation carrying no vector or metadata. -/
def replicate_remove (s : ManagerState) (id : ℕ) (timestamp : ℕ) :
    Except String Unit × ManagerState :=
  if s.running = false then (.error "ReplicationManager not running", s)
  else if s.config.mode = ReplicationMode.None then (.ok (), s)
  else
    (.ok (),
      { s with pending_operations := s.pending_operations ++
          [{ type := .Remove, id := id, vector := [], metadata := [],
             timestamp := timestamp, source_node := s.current_primary }] })

/-- Non-primary node count (replication_manager.cpp lines 135-139). -/
def total_replicas (s : ManagerState) : ℕ :=
  (s.nodes.filter (fun n => decide (n.1 ≠ s.current_primary))).length

/-- The semi-sync acknowledgment loop (lines 180-191): walk the futures in
launch order, counting successes, and break as soon as the required count
is reached. -/
def semiSyncCollect : List Bool → ℕ → ℕ → ℕ
  | [], succ, _ => succ
  | a :: rest, succ, required =>
    if a then
      let s := succ + 1
      if required ≤ s then s else semiSyncCollect rest s required
    else semiSyncCollect rest succ required

/-- What the worker observes after waiting on the replication futures:
success count, the required count, and whether the shortfall error was
logged.  Nothing here flows back to the caller of `replicate_*`. -/
structure ReplicationOutcome where
  successful : ℕ
  required : ℕ
  shortfall_logged : Bool
deriving DecidableEq

/-- `Impl::process_replication_operation` (lines 130-199), run by the
background worker.  The per-replica network outcomes (acknowledged or
not, in launch order) are the `acks` parameter.  In semi-sync mode the
required count is `min(min_replicas - 1, total_replicas)` in `size_t`
arithmetic: when `min_replicas = 0` the subtraction wraps, so the minimum
selects `total_replicas`.  A shortfall is logged, never returned. -/
def process_replication_operation (s : ManagerState) (acks : List Bool) : ReplicationOutcome :=
  let total := total_replicas s
  match s.config.mode with
  | .Sync =>
    let successful := (acks.filter (fun a => a)).length
    ⟨successful, total, decide (successful < total)⟩
  | .SemiSync =>
    let required := if s.config.min_replicas = 0 then total
                    else Nat.min (s.config.min_replicas - 1) total
    let successful := semiSyncCollect acks 0 required
    ⟨successful, required, decide (successful < required)⟩
  | _ => ⟨0, 0, false⟩

/-- Replica table with a healthy primary `p` (priority 10) and one healthy
replica `r` (priority 5); `p` is the current primary. -/
def exRepl : ManagerState :=
  { config := { mode := .Async, min_replicas := 1, sync_timeout_ms := 5000,
                heartbeat_interval_ms := 1000 },
    nodes := [("p", { config := { node_id := "p", host := "h", port := 1,
                                  is_primary := true, priority := 10 },
                      is_healthy := true }),
              ("r", { config := { node_id := "r", host := "h", port := 2,
                                  is_primary := false, priority := 5 },
                      is_healthy := true })],
    pending_operations := [],
    current_primary := "p",
    running := true }

/-- Semi-sync manager (min_replicas = 2) with primary `p` and one healthy
replica `r1`, running. -/
def exMgr6 : ManagerState :=
  { config := { mode := .SemiSync, min_replicas := 2, sync_timeout_ms := 5000,
                heartbeat_interval_ms := 1000 },
    nodes := [("p", { config := { node_id := "p", host := "h", port := 1,
                                  is_primary := true, priority := 10 },
                      is_healthy := true }),
              ("r1", { config := { node_id := "r1", host := "h", port := 2,
                                   is_primary := false, priority := 5 },
                       is_healthy := true })],
    pending_operations := [],
    current_primary := "p",
    running := true }

/-! ## Distributed database facade (`src/distributed/distributed_database.cpp`) -/

/-- `QueryResult`: id, distance, score and optional metadata (floats
idealized as ℚ; the facade only moves these values around). -/
structure QueryResult where
  id : ℕ
  distance : ℚ
  score : ℚ
  metadata : Option Metadata
deriving DecidableEq

/-- The comparator of `Impl::merge_results` (distributed_database.cpp
lines 84-87): descending by score. -/
def qrLe (a b : QueryResult) : Prop := b.score ≤ a.score

instance : DecidableRel qrLe := fun a b => (inferInstance : Decidable (b.score ≤ a.score))

instance : IsTotal QueryResult qrLe := ⟨fun a b => le_total b.score a.score⟩

instance : IsTrans QueryResult qrLe := ⟨fun _ _ _ hab hbc => le_trans hbc hab⟩

/-- `Impl::merge_results` (lines 74-95): concatenate the per-shard result
lists, sort descending by score (`std::sort`, modelled by insertion sort
over the same comparator) and truncate to k. -/
def merge_results (shard_results : List (List QueryResult)) (k : ℕ) : List QueryResult :=
  let merged := shard_results.foldl (fun acc r => acc ++ r) []
  (List.insertionSort qrLe merged).take k

/-- The filter phase of `DistributedVectorDatabase::search` (lines
297-305): applied to the already merged-and-truncated list; a result
without metadata never passes. -/
def apply_filter (filt : Option (Metadata → Bool)) (merged : List QueryResult) :
    List QueryResult :=
  match filt with
  | none => merged
  | some f => merged.filter (fun r => match r.metadata with
                                      | some m => f m
                                      | none => false)

/-- `DistributedVectorDatabase::search` from the per-shard results on:
merge, then filter (lines 293-307).  The per-shard result lists are the
parameter, standing for the values `search_shard` returned. -/
def ddb_search_merge (shard_results : List (List QueryResult)) (k : ℕ)
    (filt : Option (Metadata → Bool)) : List QueryResult :=
  apply_filter filt (merge_results shard_results k)

/-- State of the facade as `remove` reads it: the sharding configuration
and ring, the keys of the `local_shards` map, and the replication
manager. -/
structure DDBState where
  sharding : ShardingConfig
  virtual_ring : List VirtualNode
  local_shards : List String
  repl : ManagerState

/-- `DistributedVectorDatabase::remove` (lines 198-220): route the id,
fail if routing failed, return false when the routed shard is not a local
shard, otherwise submit the removal for replication (a replication error
is only logged) and return true. -/
def ddb_remove (s : DDBState) (id : ℕ) (timestamp : ℕ) : Except String Bool × DDBState :=
  match get_shard_for_id s.sharding s.virtual_ring id with
  | .error e => (.error e, s)
  | .ok shard_id =>
    if s.local_shards.contains shard_id = false then (.ok false, s)
    else
      let r := replicate_remove s.repl id timestamp
      (.ok true, { s with repl := r.2 })

/-- Facade with a single range shard `shard1` covering [0, 100), present
in the local shard map, and a stopped replication manager; no vector has
ever been added. -/
def exDDB : DDBState :=
  { sharding := { strategy := .Range, shards := [⟨"shard1", 0, 100⟩] },
    virtual_ring := [],
    local_shards := ["shard1"],
    repl :=
      { config := { mode := .Async, min_replicas := 1, sync_timeout_ms := 5000,
                    heartbeat_interval_ms := 1000 },
        nodes := [], pending_operations := [], current_primary := "", running := false } }

/-- Single shard holding two results: id 1 scores 2 with metadata tag
`drop`; id 2 scores 1 with metadata tag `keep`. -/
def exShardResults : List (List QueryResult) :=
  [[{ id := 1, distance := 0, score := 2, metadata := some [("tag", "drop")] },
    { id := 2, distance := 0, score := 1, metadata := some [("tag", "keep")] }]]

/-- Predicate keeping exactly the metadata tagged `keep`. -/
def exPredicate (m : Metadata) : Bool := m == [("tag", "keep")]

/-! ## BM25 engine (`src/hybrid/bm25_engine.cpp`)

Doubles are idealized as ℝ.  The engine's `std::unordered_map` members
are modelled as total functions (`inverted_index`, `document_frequency`;
an absent key is the empty posting list or frequency 0 — posting lists
are never stored empty) or as association lists (`documents`, and the
`scores`/`matched_terms` accumulators of `search`, fused into one list of
entries since both are keyed by the document id). -/

/-- `to_lower`: per-character `std::tolower` (ASCII, default locale),
expressed over the character list. -/
def to_lower (s : String) : String := String.mk (s.data.map Char.toLower)

/-- `std::string` suffix comparison (`substr` against the tail), over the
character list. -/
def strEndsWith (s p : String) : Bool := p.data.isSuffixOf s.data

/-- Dropping the last n characters (`substr(0, length - n)`), over the
character list. -/
def strDropRight (s : String) (n : ℕ) : String :=
  String.mk (s.data.take (s.data.length - n))

/-- The character class of `tokenize`: `std::isalnum(c) || c == '-' ||
c == '_'`. -/
def isWordChar (c : Char) : Bool := c.isAlphanum || c == '-' || c == '_'

/-- `tokenize` (bm25_engine.cpp lines 31-49): split the text on runs of
non-word characters, flushing the pending token at each boundary and once
at the end. -/
def tokenize (text : String) : List String :=
  let r := text.data.foldl
    (fun (acc : List String × List Char) c =>
      if isWordChar c then (acc.1, acc.2 ++ [c])
      else if acc.2 ≠ [] then (acc.1 ++ [String.mk acc.2], []) else acc)
    ([], [])
  if r.2 ≠ [] then r.1 ++ [String.mk r.2] else r.1

/-- `stem` (lines 52-67): on words longer than 3 characters strip a
trailing "ing", else "ed", else a final "s" that is not part of "ss". -/
def stem (word : String) : String :=
  if word.length > 3 then
    if strEndsWith word "ing" then strDropRight word 3
    else if strEndsWith word "ed" then strDropRight word 2
    else if strEndsWith word "s" && !(strEndsWith word "ss") then strDropRight word 1
    else word
  else word

/-- The engine's stop-word set (lines 69-73). -/
def STOP_WORDS : List String :=
  ["a", "an", "and", "are", "as", "at", "be", "by", "for", "from",
   "has", "he", "in", "is", "it", "its", "of", "on", "that", "the",
   "to", "was", "were", "will", "with", "this", "but", "they", "have"]

def is_stop_word (word : String) : Bool := STOP_WORDS.contains word

/-- `BM25Config` as read by the engine (declared in the missing header
`hybrid_search.hpp`): the k1 and b parameters and the tokenization
switches. -/
structure BM25Config where
  k1 : ℝ
  b : ℝ
  case_sensitive : Bool
  min_term_length : ℕ
  use_stemming : Bool

/-- One iteration of the `process_text` loop (lines 84-102): lowercase
unless case-sensitive, drop short tokens and stop words, stem if
enabled. -/
def processToken (cfg : BM25Config) (token : String) : Option String :=
  let t := if cfg.case_sensitive then token else to_lower token
  if t.length < cfg.min_term_length then none
  else if is_stop_word t then none
  else some (if cfg.use_stemming then stem t else t)

/-- `process_text` (lines 79-105): tokenize then run every token through
the filter pipeline, keeping survivors in order. -/
def process_text (text : String) (cfg : BM25Config) : List String :=
  (tokenize text).filterMap (processToken cfg)

/-- A stored document: id, raw content, length in processed tokens, and
the per-term frequency table (the distinct processed terms, each with its
occurrence count; the C++ `positions` vectors are determined by these and
are read by nothing modelled here). -/
structure Document where
  id : ℕ
  content : String
  length : ℕ
  terms : List (String × ℕ)

/-- State of `BM25Engine::Impl`. -/
structure BM25State where
  config : BM25Config
  documents : List (ℕ × Document)
  inverted_index : String → List (ℕ × ℕ)
  document_frequency : String → ℕ
  total_documents : ℕ
  total_terms : ℕ
  avg_doc_length : ℝ

/-- `Impl::add_document` (lines 124-164): reject duplicates and contents
whose processed term list is empty; otherwise append the document, extend
each distinct term's posting list with `(id, frequency)`, bump its
document frequency (the source guards on a positive frequency), and
update the totals and the average document length.  The pair's second
component is the returned `Result<void>`. -/
noncomputable def add_document (s : BM25State) (id : ℕ) (content : String) :
    BM25State × Except String Unit :=
  if (s.documents.lookup id).isSome then (s, .error "Document already exists")
  else
    let terms := process_text content s.config
    if terms = [] then (s, .error "No valid terms in document")
    else
      let doc : Document :=
        { id := id, content := content, length := terms.length,
          terms := terms.dedup.map (fun t => (t, terms.count t)) }
      let inv2 := terms.dedup.foldl
        (fun f t => fun u => if u = t then f u ++ [(id, terms.count t)] else f u)
        s.inverted_index
      let df2 := terms.dedup.foldl
        (fun f t => fun u => if 0 < terms.count t ∧ u = t then f u + 1 else f u)
        s.document_frequency
      ({ config := s.config,
         documents := s.documents ++ [(id, doc)],
         inverted_index := inv2,
         document_frequency := df2,
         total_documents := s.total_documents + 1,
         total_terms := s.total_terms + terms.length,
         avg_doc_length := ((s.total_terms + terms.length : ℕ) : ℝ) /
           ((s.total_documents + 1 : ℕ) : ℝ) }, .ok ())

/-- A scored search hit; also the entry type of the accumulator fusing
the `scores` and `matched_terms` maps of `Impl::search`. -/
structure BM25Result where
  id : ℕ
  score : ℝ
  matched_terms : List String

/-- Accumulate one posting hit (lines 191-199): add the contribution to
the document's running score and record the matched term, creating the
entry on first contact. -/
noncomputable def addScore (d : ℕ) (t : String) (v : ℝ) :
    List BM25Result → List BM25Result
  | [] => [{ id := d, score := v, matched_terms := [t] }]
  | e :: rest =>
      if e.id = d then
        { id := e.id, score := e.score + v, matched_terms := e.matched_terms ++ [t] } :: rest
      else e :: addScore d t v rest

/-- Lookup in a posting list (the map access of the source, which stores
posting lists keyed by term and entries keyed by document id). -/
def plookup : List (ℕ × ℕ) → ℕ → Option ℕ
  | [], _ => none
  | p :: rest, d => if p.1 = d then some p.2 else plookup rest d

/-- `documents.at(doc_id).length` as read by the scoring loop; the id is
present in every reachable state. -/
def docLen (s : BM25State) (d : ℕ) : ℕ :=
  match s.documents.lookup d with
  | some doc => doc.length
  | none => 0

/-- The idf of line 189: `ln((N - df + 0.5) / (df + 0.5) + 1)`, with the
subtraction exact (the C++ `size_t` subtraction agrees whenever
`df ≤ N`, which every reachable state satisfies). -/
noncomputable def bm25Idf (s : BM25State) (t : String) : ℝ :=
  Real.log (((s.total_documents : ℝ) - (s.document_frequency t : ℝ) + 0.5) /
    ((s.document_frequency t : ℝ) + 0.5) + 1)

/-- One posting's score contribution (lines 193-196):
`idf * (tf * (k1 + 1)) / (tf + k1 * (1 - b + b * len / avg_doc_length))`. -/
noncomputable def bm25Contrib (s : BM25State) (t : String) (d : ℕ) (tf : ℕ) : ℝ :=
  bm25Idf s t *
    (((tf : ℝ) * (s.config.k1 + 1)) /
      ((tf : ℝ) + s.config.k1 *
        (1 - s.config.b + s.config.b * (docLen s d : ℝ) / s.avg_doc_length)))

/-- The per-query-term step of the scoring loop (lines 181-201): skip
terms with an empty (absent) posting list, otherwise fold the posting
list into the accumulator. -/
noncomputable def bm25TermStep (s : BM25State) (acc : List BM25Result) (t : String) :
    List BM25Result :=
  if s.inverted_index t = [] then acc
  else (s.inverted_index t).foldl (fun a p => addScore p.1 t (bm25Contrib s t p.1 p.2) a) acc

/-- The full scoring fold over the processed query terms. -/
noncomputable def bm25Scores (s : BM25State) (query_terms : List String) : List BM25Result :=
  query_terms.foldl (bm25TermStep s) []

/-- Modelled from the spec: `BM25Result::operator<`, which drives the
`std::sort` of line 216, is declared in the missing header
`hybrid_search.hpp`; the spec fixes the resulting order as descending
score with ties broken by ascending id.  `bm25Le` is the induced
non-strict sorting relation (the negation of the strict order applied to
the swapped pair). -/
def bm25Le (a b : BM25Result) : Prop :=
  b.score < a.score ∨ (a.score = b.score ∧ a.id ≤ b.id)

noncomputable instance : DecidableRel bm25Le := fun a b =>
  (inferInstance : Decidable (b.score < a.score ∨ (a.score = b.score ∧ a.id ≤ b.id)))

instance : IsTotal BM25Result bm25Le where
  total a b := by
    rcases lt_trichotomy a.score b.score with h | h | h
    · exact Or.inr (Or.inl h)
    · rcases le_total a.id b.id with h2 | h2
      · exact Or.inl (Or.inr ⟨h, h2⟩)
      · exact Or.inr (Or.inr ⟨h.symm, h2⟩)
    · exact Or.inl (Or.inl h)

instance : IsTrans BM25Result bm25Le where
  trans a b c hab hbc := by
    rcases hab with h1 | ⟨h1, h1i⟩
    · rcases hbc with h2 | ⟨h2, _⟩
      · exact Or.inl (lt_trans h2 h1)
      · exact Or.inl (h2 ▸ h1)
    · rcases hbc with h2 | ⟨h2, h2i⟩
      · exact Or.inl (h1 ▸ h2)
      · exact Or.inr ⟨h1.trans h2, le_trans h1i h2i⟩

/-- `Impl::search` (lines 166-223): empty index short-circuits to an
empty result, an empty processed query errs, otherwise score, keep the
hits reaching `min_score`, sort (`std::sort` under `operator<`, modelled
by insertion sort under `bm25Le`) and truncate to k. -/
noncomputable def bm25_search (s : BM25State) (query : String) (k : ℕ) (min_score : ℝ) :
    Except String (List BM25Result) :=
  if s.total_documents = 0 then .ok []
  else
    let query_terms := process_text query s.config
    if query_terms = [] then .error "No valid terms in query"
    else
      let results := (bm25Scores s query_terms).filter (fun e => decide (min_score ≤ e.score))
      .ok ((List.insertionSort bm25Le results).take k)

/-- Modelled from the spec (claim C4's scoring formula): the score of
document d is the sum, over processed query terms t with df(t) > 0, of
`idf(t) * tf * (k1 + 1) / (tf + k1 * (1 - b + b * len(d) / avgLen))`,
the term frequency being the posting-list entry of d (0, contributing
nothing, when d is not in t's posting list). -/
noncomputable def bm25SpecScore (s : BM25State) (query_terms : List String) (d : ℕ) : ℝ :=
  (query_terms.map (fun t =>
    if 0 < s.document_frequency t then
      bm25Contrib s t d ((plookup (s.inverted_index t) d).getD 0)
    else 0)).sum

/-- The per-term contribution as the code accrues it: nothing for a term
with an empty posting list, else the contribution of d's posting entry if
any. -/
noncomputable def bm25TermC (s : BM25State) (t : String) (d : ℕ) : ℝ :=
  if s.inverted_index t = [] then 0
  else match plookup (s.inverted_index t) d with
       | some tf => bm25Contrib s t d tf
       | none => 0

/-- The documents the scoring loop touches: those appearing in the
posting list of at least one processed query term. -/
def bm25Candidate (s : BM25State) (query_terms : List String) (d : ℕ) : Prop :=
  ∃ t ∈ query_terms, s.inverted_index t ≠ [] ∧ d ∈ (s.inverted_index t).map Prod.fst

/-- Score bookkeeping: the running score of document d in the
accumulator. -/
noncomputable def accScore : List BM25Result → ℕ → ℝ
  | [], _ => 0
  | e :: rest, d => if e.id = d then e.score else accScore rest d

/-- Membership of a document id in the accumulator. -/
def accHas (l : List BM25Result) (d : ℕ) : Prop := ∃ e ∈ l, e.id = d

/-- Consistency of a BM25 engine state, as `add_document` maintains it:
each term's document frequency counts its posting list, and a posting
list holds at most one entry per document. -/
structure BM25WF (s : BM25State) : Prop where
  df_postings : ∀ t, s.document_frequency t = (s.inverted_index t).length
  postings_nodup : ∀ t, ((s.inverted_index t).map Prod.fst).Nodup

/-- A BM25 configuration with k1 = 3/2, b = 3/4, case folding, minimum
term length 2 and stemming enabled. -/
noncomputable def exBM25Cfg : BM25Config :=
  { k1 := 3 / 2, b := 3 / 4, case_sensitive := false, min_term_length := 2,
    use_stemming := true }

/-- The empty BM25 engine under `exBM25Cfg`. -/
noncomputable def exBM25Empty : BM25State :=
  { config := exBM25Cfg, documents := [], inverted_index := fun _ => [],
    document_frequency := fun _ => 0, total_documents := 0, total_terms := 0,
    avg_doc_length := 0 }

/-- A one-document engine: document 1 is the single term "gold". -/
noncomputable def exBM25One : BM25State :=
  { config := exBM25Cfg,
    documents := [(1, { id := 1, content := "gold", length := 1, terms := [("gold", 1)] })],
    inverted_index := fun t => if t = "gold" then [(1, 1)] else [],
    document_frequency := fun t => if t = "gold" then 1 else 0,
    total_documents := 1, total_terms := 1, avg_doc_length := 1 }

/-! ## Theorems -/

/-- The failover selection fold either returns its accumulator (when every
healthy node has priority at most the accumulator's) or returns the first
healthy node whose priority exceeds the accumulator's and is maximal
among the healthy nodes. -/
theorem selectStep_spec (nodes : List (String × NodeState)) : ∀ acc : String × Int,
    (nodes.foldl selectStep acc = acc
      ∧ ∀ n ∈ nodes, n.2.is_healthy = true → n.2.config.priority ≤ acc.2)
    ∨ (∃ pre nd post, nodes = pre ++ nd :: post ∧ nd.2.is_healthy = true ∧
        acc.2 < nd.2.config.priority ∧
        nodes.foldl selectStep acc = (nd.1, nd.2.config.priority) ∧
        (∀ m ∈ pre, m.2.is_healthy = true → m.2.config.priority < nd.2.config.priority) ∧
        (∀ m ∈ post, m.2.is_healthy = true → m.2.config.priority ≤ nd.2.config.priority)) := by
  induction nodes with
  | nil => exact fun acc => Or.inl ⟨rfl, by simp⟩
  | cons n rest ih =>
    intro acc
    by_cases h : n.2.is_healthy = true ∧ acc.2 < n.2.config.priority
    · have hstep : selectStep acc n = (n.1, n.2.config.priority) := by
        simp [selectStep, h]
      rcases ih (n.1, n.2.config.priority) with ⟨heq, hbound⟩ |
        ⟨pre, nd, post, hsplit, hh, hlt, heq, hpre, hpost⟩
      · refine Or.inr ⟨[], n, rest, by simp, h.1, h.2, ?_, by simp, ?_⟩
        · simpa [hstep] using heq
        · exact fun m hm hmh => hbound m hm hmh
      · refine Or.inr ⟨n :: pre, nd, post, by simp [hsplit], hh, lt_trans h.2 hlt, ?_, ?_, hpost⟩
        · simpa [hstep] using heq
        · intro m hm hmh
          rcases List.mem_cons.mp hm with rfl | hm2
          · exact hlt
          · exact hpre m hm2 hmh
    · have hstep : selectStep acc n = acc := by
        simp only [selectStep, if_neg h]
      rcases ih acc with ⟨heq, hbound⟩ | ⟨pre, nd, post, hsplit, hh, hlt, heq, hpre, hpost⟩
      · refine Or.inl ⟨by simpa [hstep] using heq, ?_⟩
        intro m hm hmh
        rcases List.mem_cons.mp hm with rfl | hm2
        · exact le_of_not_lt (not_and.mp h hmh)
        · exact hbound m hm2 hmh
      · refine Or.inr ⟨n :: pre, nd, post, by simp [hsplit], hh, hlt, ?_, ?_, hpost⟩
        · simpa [hstep] using heq
        · intro m hm hmh
          rcases List.mem_cons.mp hm with rfl | hm2
          · exact lt_of_le_of_lt (le_of_not_lt (not_and.mp h hmh)) hlt
          · exact hpre m hm2 hmh

/-- C2 (amended): `trigger_failover` scans all nodes — the current primary
included — and promotes the first node in table iteration order whose
health flag is set and whose priority is maximal among healthy nodes and
exceeds -1; ties are resolved by iteration order, not by lowest node id.
`current_primary` is unchanged when no such node exists, when the
selected node is already the primary, or when its id is the empty
string. -/
theorem trigger_failover_amended (s : ManagerState) :
    ((∀ n ∈ s.nodes, n.2.is_healthy = true → n.2.config.priority ≤ -1) ∧
      trigger_failover s = s)
    ∨ (∃ pre nd post, s.nodes = pre ++ nd :: post ∧ nd.2.is_healthy = true ∧
        (-1 : Int) < nd.2.config.priority ∧
        (∀ m ∈ pre, m.2.is_healthy = true → m.2.config.priority < nd.2.config.priority) ∧
        (∀ m ∈ s.nodes, m.2.is_healthy = true → m.2.config.priority ≤ nd.2.config.priority) ∧
        trigger_failover s =
          (if nd.1 = "" ∨ nd.1 = s.current_primary then s
           else { s with current_primary := nd.1 })) := by
  rcases selectStep_spec s.nodes ("", -1) with ⟨heq, hbound⟩ |
    ⟨pre, nd, post, hsplit, hh, hlt, heq, hpre, hpost⟩
  · refine Or.inl ⟨hbound, ?_⟩
    simp [trigger_failover, selectNewPrimary, heq]
  · refine Or.inr ⟨pre, nd, post, hsplit, hh, hlt, hpre, ?_, ?_⟩
    · intro m hm hmh
      rw [hsplit] at hm
      rcases List.mem_append.mp hm with hm1 | hm2
      · exact le_of_lt (hpre m hm1 hmh)
      · rcases List.mem_cons.mp hm2 with rfl | hm3
        · exact le_refl _
        · exact hpost m hm3 hmh
    · by_cases h0 : nd.1 = ""
      · simp [trigger_failover, selectNewPrimary, heq, h0]
      · by_cases h1 : nd.1 = s.current_primary
        · simp [trigger_failover, selectNewPrimary, heq, h0, h1]
        · simp [trigger_failover, selectNewPrimary, heq, h0, h1]

/-- C2 counterexample: with a healthy primary `p` of priority 10 and a
single healthy replica `r` of priority 5, the claim promotes the healthy
replica `r`, but `trigger_failover` leaves `current_primary` at `p`
because the selection scan also considers the primary itself and `p` has
the highest priority. -/
theorem trigger_failover_cex :
    (trigger_failover exRepl).current_primary = "p" ∧
    specFailoverTarget exRepl = some "r" ∧ ("p" : String) ≠ "r" := by decide

/-- C6 (amended): in semi-sync mode a running manager's `replicate_add`
only enqueues the operation and returns success immediately; the wait for
`min(min_replicas - 1, total_replicas)` acknowledgments (with the
`size_t` wrap at `min_replicas = 0` selecting `total_replicas`) happens
in the background worker's `process_replication_operation`, whose
shortfall is logged there and never returned to the caller. -/
theorem replicate_add_semisync_amended (s : ManagerState) (id : ℕ) (vector : List ℚ)
    (metadata : Metadata) (timestamp : ℕ) (hrun : s.running = true)
    (hmode : s.config.mode = ReplicationMode.SemiSync) :
    replicate_add s id vector metadata timestamp =
      (Except.ok (),
        { s with pending_operations := s.pending_operations ++
            [{ type := .Add, id := id, vector := vector, metadata := metadata,
               timestamp := timestamp, source_node := s.current_primary }] })
    ∧ (∀ acks, (process_replication_operation s acks).required =
        (if s.config.min_replicas = 0 then total_replicas s
         else Nat.min (s.config.min_replicas - 1) (total_replicas s)))
    ∧ (∀ acks, ((process_replication_operation s acks).shortfall_logged = true ↔
        (process_replication_operation s acks).successful <
          (process_replication_operation s acks).required)) := by
  refine ⟨?_, ?_, ?_⟩
  · simp [replicate_add, hrun, hmode]
  · intro acks
    simp [process_replication_operation, hmode]
  · intro acks
    simp [process_replication_operation, hmode]

/-- Witness for the amended C6 theorem at the concrete semi-sync manager
`exMgr6`. -/
theorem replicate_add_semisync_amended_witness :
    (exMgr6.running = true ∧ exMgr6.config.mode = ReplicationMode.SemiSync) ∧
    (replicate_add exMgr6 7 [1] [] 100).1 = Except.ok () :=
  ⟨⟨rfl, rfl⟩, by
    have h := replicate_add_semisync_amended exMgr6 7 [1] [] 100 rfl rfl
    rw [h.1]⟩

/-- C6 counterexample: on the running semi-sync manager `exMgr6` (two
nodes, `min_replicas = 2`, so one acknowledgment is required) a
`replicate_add` returns plain success to the caller even though the
worker, observing zero acknowledgments, records the shortfall only in a
log flag that never reaches the caller. -/
theorem replicate_add_semisync_cex :
    (replicate_add exMgr6 7 [1] [] 100).1 = Except.ok () ∧
    process_replication_operation exMgr6 [false] =
      { successful := 0, required := 1, shortfall_logged := true } :=
  ⟨rfl, by decide⟩

/-- C3 (amended): with a predicate supplied, the facade search equals the
predicate-restriction of the already truncated top-k of the concatenated
per-shard results — the filter runs after the cut to k (and results
without metadata are dropped) — so fewer than k results may come back
even when k or more results across all shards satisfy the predicate. -/
theorem ddb_search_filter_amended (sr : List (List QueryResult)) (k : ℕ) (f : Metadata → Bool) :
    ddb_search_merge sr k (some f) =
      (merge_results sr k).filter (fun r => match r.metadata with
                                            | some m => f m
                                            | none => false)
    ∧ (ddb_search_merge sr k (some f)).length ≤ k
    ∧ List.Sorted qrLe (ddb_search_merge sr k (some f))
    ∧ ∀ r ∈ ddb_search_merge sr k (some f),
        (∃ m, r.metadata = some m ∧ f m = true) ∧
          r ∈ sr.foldl (fun acc l => acc ++ l) [] := by
  refine ⟨rfl, ?_, ?_, ?_⟩
  · calc (ddb_search_merge sr k (some f)).length
        ≤ (merge_results sr k).length := List.length_filter_le _ _
      _ ≤ k := by
          simp [merge_results]
  · have hs : List.Sorted qrLe
        (List.insertionSort qrLe (sr.foldl (fun acc l => acc ++ l) [])) :=
      List.sorted_insertionSort qrLe _
    have htake : List.Sorted qrLe (merge_results sr k) :=
      List.Pairwise.sublist (List.take_sublist _ _) hs
    exact List.Pairwise.filter _ htake
  · intro r hr
    have hr2 := List.mem_filter.mp hr
    constructor
    · rcases hmd : r.metadata with _ | m
      · rw [hmd] at hr2
        simp at hr2
      · refine ⟨m, rfl, ?_⟩
        rw [hmd] at hr2
        simpa using hr2.2
    · have h3 : r ∈ merge_results sr k := hr2.1
      have h4 : r ∈ List.insertionSort qrLe (sr.foldl (fun acc l => acc ++ l) []) :=
        List.take_subset _ _ h3
      exact (List.perm_insertionSort qrLe _).subset h4

/-- C3 counterexample: one shard returns two results, the higher-scoring
one failing the predicate and the lower-scoring one satisfying it; with
k = 1 the facade returns nothing although one result satisfying the
predicate exists across the shards. -/
theorem ddb_search_filter_cex :
    ddb_search_merge exShardResults 1 (some exPredicate) = [] ∧
    1 ≤ ((exShardResults.foldl (fun acc l => acc ++ l) []).filter
          (fun r => match r.metadata with
                    | some m => exPredicate m
                    | none => false)).length := by
  decide

/-- C5: evaluation of `DistributedVectorDatabase::remove` at an id that
was never added.  The facade routes id 42 to the configured local shard
`shard1` and returns `Ok(true)` — the shard-side removal is a stub that
never checks presence — where the specification requires `Ok(false)` for
an id that is not present. -/
theorem ddb_remove_true_for_absent_id :
    (ddb_remove exDDB 42 0).1 = Except.ok true := rfl

/-- C9: under the range strategy `get_shard_for_id` errs exactly on an
empty shard table; with a non-empty table it returns the first shard
whose [start, end) interval holds the id, and silently routes to the
first shard of the table when no interval matches. -/
theorem range_get_shard_never_errors (cfg : ShardingConfig) (ring : List VirtualNode) (id : ℕ)
    (hs : cfg.strategy = ShardingStrategy.Range) :
    (cfg.shards = [] → get_shard_for_id cfg ring id = .error "No shards configured")
    ∧ (∀ s0 rest, cfg.shards = s0 :: rest →
        get_shard_for_id cfg ring id = .ok (find_shard_range cfg.shards id)
        ∧ ((∀ sh ∈ cfg.shards, ¬(sh.start_range ≤ id ∧ id < sh.end_range)) →
            get_shard_for_id cfg ring id = .ok s0.shard_id)) := by
  constructor
  · intro he
    simp [get_shard_for_id, he]
  · intro s0 rest hcons
    constructor
    · simp [get_shard_for_id, hcons, hs]
    · intro hnone
      have hfind : cfg.shards.find?
          (fun sh => decide (sh.start_range ≤ id) && decide (id < sh.end_range)) = none := by
        apply List.find?_eq_none.mpr
        intro sh hsh
        have := hnone sh hsh
        simpa using this
      rw [hcons] at hfind
      simp [get_shard_for_id, hcons, hs, find_shard_range, hfind]

/-- Witness for the C9 theorem: on the two-shard range table covering
[0, 10) and [10, 20), id 25 matches no interval and is routed to the
first shard. -/
theorem range_get_shard_never_errors_witness :
    exShardCfg.strategy = ShardingStrategy.Range ∧
    get_shard_for_id exShardCfg [] 25 = .ok "shard1" :=
  ⟨rfl, ((range_get_shard_never_errors exShardCfg [] 25 rfl).2 ⟨"shard1", 0, 10⟩
      [⟨"shard2", 10, 20⟩] rfl).2 (by decide)⟩

/-- C7: whenever either input's L2 magnitude is below the 1e-12 guard —
in particular on all-zero inputs — `cosine_similarity` returns exactly
0. -/
theorem cosine_similarity_zero_guard (a b : List ℝ) (_hlen : a.length = b.length)
    (h : normL2 a < 1e-12 ∨ normL2 b < 1e-12) : cosine_similarity a b = 0 := by
  simp only [cosine_similarity]
  rw [if_pos h]

/-- Witness for the C7 theorem on the all-zero pair of length 2. -/
theorem cosine_similarity_zero_guard_witness :
    (([0, 0] : List ℝ).length = ([0, 0] : List ℝ).length ∧
      (normL2 [0, 0] < 1e-12 ∨ normL2 [0, 0] < 1e-12)) ∧
    cosine_similarity [0, 0] [0, 0] = 0 := by
  have hn : normL2 ([0, 0] : List ℝ) < 1e-12 := by
    norm_num [normL2, Real.sqrt_zero]
  exact ⟨⟨rfl, Or.inl hn⟩, cosine_similarity_zero_guard [0, 0] [0, 0] rfl (Or.inl hn)⟩

/-- `addScore` adds its contribution to the target document's running
score. -/
theorem accScore_addScore_self (d : ℕ) (t : String) (v : ℝ) (l : List BM25Result) :
    accScore (addScore d t v l) d = accScore l d + v := by
  induction l with
  | nil => simp [addScore, accScore]
  | cons e rest ih =>
    by_cases h : e.id = d
    · simp [addScore, h, accScore]
    · simp [addScore, h, accScore, ih]

/-- `addScore` leaves every other document's running score unchanged. -/
theorem accScore_addScore_other (d : ℕ) (t : String) (v : ℝ) (l : List BM25Result)
    (x : ℕ) (hx : x ≠ d) : accScore (addScore d t v l) x = accScore l x := by
  induction l with
  | nil => simp [addScore, accScore, Ne.symm hx]
  | cons e rest ih =>
    simp only [addScore]
    by_cases h : e.id = d
    · rw [if_pos h]
      have hne : e.id ≠ x := fun he => hx (he.symm.trans h)
      simp only [accScore]
      simp [hne]
    · rw [if_neg h]
      by_cases h2 : e.id = x
      · simp [accScore, h2]
      · simp [accScore, h2, ih]

/-- The documents present after an `addScore`. -/
theorem accHas_addScore (d : ℕ) (t : String) (v : ℝ) (l : List BM25Result) (x : ℕ) :
    accHas (addScore d t v l) x ↔ x = d ∨ accHas l x := by
  induction l with
  | nil => simp [addScore, accHas, eq_comm]
  | cons e rest ih =>
    by_cases h : e.id = d
    · simp only [addScore, if_pos h, accHas, List.mem_cons] at ih ⊢
      subst h
      constructor
      · rintro ⟨f, rfl | hf, hfx⟩
        · exact Or.inr ⟨e, Or.inl rfl, hfx⟩
        · exact Or.inr ⟨f, Or.inr hf, hfx⟩
      · rintro (rfl | ⟨f, rfl | hf, hfx⟩)
        · exact ⟨_, Or.inl rfl, rfl⟩
        · exact ⟨_, Or.inl rfl, hfx⟩
        · exact ⟨f, Or.inr hf, hfx⟩
    · simp only [addScore, if_neg h, accHas, List.mem_cons] at ih ⊢
      constructor
      · rintro ⟨f, rfl | hf, hfx⟩
        · exact Or.inr ⟨f, Or.inl rfl, hfx⟩
        · rcases ih.mp ⟨f, hf, hfx⟩ with h1 | ⟨g, hg, hgx⟩
          · exact Or.inl h1
          · exact Or.inr ⟨g, Or.inr hg, hgx⟩
      · rintro (rfl | ⟨f, rfl | hf, hfx⟩)
        · rcases ih.mpr (Or.inl rfl) with ⟨g, hg, hgx⟩
          exact ⟨g, Or.inr hg, hgx⟩
        · exact ⟨f, Or.inl rfl, hfx⟩
        · rcases ih.mpr (Or.inr ⟨f, hf, hfx⟩) with ⟨g, hg, hgx⟩
          exact ⟨g, Or.inr hg, hgx⟩

/-- A document absent from the keys of a posting list has no entry. -/
theorem plookup_eq_none (postings : List (ℕ × ℕ)) (d : ℕ)
    (h : d ∉ postings.map Prod.fst) : plookup postings d = none := by
  induction postings with
  | nil => rfl
  | cons p rest ih =>
    simp only [List.map_cons, List.mem_cons] at h
    push_neg at h
    rw [plookup, if_neg (fun he => h.1 he.symm)]
    exact ih h.2

/-- Folding a posting list with duplicate-free keys into the accumulator
adds to document d exactly its own posting's contribution, if any. -/
theorem accScore_postings_fold (t : String) (C : ℕ → ℕ → ℝ) :
    ∀ (postings : List (ℕ × ℕ)), (postings.map Prod.fst).Nodup →
    ∀ (acc : List BM25Result) (d : ℕ),
      accScore (postings.foldl (fun a p => addScore p.1 t (C p.1 p.2) a) acc) d =
        accScore acc d + (match plookup postings d with
                          | some tf => C d tf
                          | none => 0) := by
  intro postings
  induction postings with
  | nil => intro _ acc d; simp [plookup]
  | cons p rest ih =>
    intro hnd acc d
    rw [List.map_cons] at hnd
    have hnd2 : (rest.map Prod.fst).Nodup := hnd.of_cons
    have hnotin : p.1 ∉ rest.map Prod.fst := (List.nodup_cons.mp hnd).1
    rw [List.foldl_cons, ih hnd2]
    by_cases hd : p.1 = d
    · subst hd
      have hnone : plookup rest p.1 = none := plookup_eq_none rest p.1 hnotin
      simp [plookup, hnone, accScore_addScore_self]
    · rw [accScore_addScore_other p.1 t (C p.1 p.2) acc d (fun he => hd he.symm)]
      simp [plookup, hd]

/-- The documents present after folding a posting list. -/
theorem accHas_postings_fold (t : String) (C : ℕ → ℕ → ℝ) :
    ∀ (postings : List (ℕ × ℕ)) (acc : List BM25Result) (x : ℕ),
      accHas (postings.foldl (fun a p => addScore p.1 t (C p.1 p.2) a) acc) x ↔
        x ∈ postings.map Prod.fst ∨ accHas acc x := by
  intro postings
  induction postings with
  | nil => intro acc x; simp
  | cons p rest ih =>
    intro acc x
    rw [List.foldl_cons, ih]
    rw [accHas_addScore]
    simp [List.mem_cons]
    tauto

/-- A posting entry of frequency 0 contributes nothing (the numerator
`tf * (k1 + 1)` vanishes). -/
theorem bm25Contrib_zero (s : BM25State) (t : String) (d : ℕ) :
    bm25Contrib s t d 0 = 0 := by
  simp [bm25Contrib]

/-- On a well-formed state, the contribution the scoring loop accrues for
one query term equals the corresponding summand of the specification's
formula. -/
theorem bm25TermC_spec (s : BM25State) (hwf : BM25WF s) (t : String) (d : ℕ) :
    bm25TermC s t d =
      (if 0 < s.document_frequency t then
        bm25Contrib s t d ((plookup (s.inverted_index t) d).getD 0)
      else 0) := by
  rw [bm25TermC]
  by_cases he : s.inverted_index t = []
  · rw [if_pos he]
    have hdf : s.document_frequency t = 0 := by rw [hwf.df_postings, he]; rfl
    simp [hdf]
  · rw [if_neg he]
    have hdf : 0 < s.document_frequency t := by
      rw [hwf.df_postings]
      exact List.length_pos.mpr he
    rw [if_pos hdf]
    rcases hpl : plookup (s.inverted_index t) d with _ | tf
    · simp [bm25Contrib_zero]
    · simp

/-- Folding the scoring loop over the query terms adds, for each
document, the sum of the per-term contributions. -/
theorem accScore_scores_fold (s : BM25State)
    (hnd : ∀ t, ((s.inverted_index t).map Prod.fst).Nodup) :
    ∀ (qts : List String) (acc : List BM25Result) (d : ℕ),
      accScore (qts.foldl (bm25TermStep s) acc) d =
        accScore acc d + ((qts.map (fun t => bm25TermC s t d)).sum) := by
  intro qts
  induction qts with
  | nil => intro acc d; simp
  | cons t rest ih =>
    intro acc d
    rw [List.foldl_cons, ih]
    have hstep : accScore (bm25TermStep s acc t) d = accScore acc d + bm25TermC s t d := by
      by_cases he : s.inverted_index t = []
      · simp [bm25TermStep, bm25TermC, he]
      · rw [bm25TermStep, if_neg he,
          accScore_postings_fold t (bm25Contrib s t) (s.inverted_index t) (hnd t)]
        rw [bm25TermC, if_neg he]
    rw [hstep, List.map_cons, List.sum_cons]
    ring

/-- On a well-formed state the accumulated score of every document equals
the specification's BM25 score. -/
theorem accScore_bm25Scores (s : BM25State) (hwf : BM25WF s) (qts : List String) (d : ℕ) :
    accScore (bm25Scores s qts) d = bm25SpecScore s qts d := by
  rw [bm25Scores, accScore_scores_fold s hwf.postings_nodup qts [] d]
  rw [bm25SpecScore]
  have hmap : qts.map (fun t => bm25TermC s t d) =
      qts.map (fun t =>
        if 0 < s.document_frequency t then
          bm25Contrib s t d ((plookup (s.inverted_index t) d).getD 0)
        else 0) :=
    List.map_congr_left (fun t _ => bm25TermC_spec s hwf t d)
  rw [hmap]
  simp [accScore]

/-- The documents present after the full scoring fold. -/
theorem accHas_scores_fold (s : BM25State) :
    ∀ (qts : List String) (acc : List BM25Result) (x : ℕ),
      accHas (qts.foldl (bm25TermStep s) acc) x ↔
        (∃ t ∈ qts, s.inverted_index t ≠ [] ∧ x ∈ (s.inverted_index t).map Prod.fst)
          ∨ accHas acc x := by
  intro qts
  induction qts with
  | nil => intro acc x; simp
  | cons t rest ih =>
    intro acc x
    rw [List.foldl_cons, ih]
    have hstep : accHas (bm25TermStep s acc t) x ↔
        (s.inverted_index t ≠ [] ∧ x ∈ (s.inverted_index t).map Prod.fst) ∨ accHas acc x := by
      by_cases he : s.inverted_index t = []
      · simp [bm25TermStep, he]
      · rw [bm25TermStep, if_neg he, accHas_postings_fold]
        simp [he]
    rw [hstep]
    simp only [List.mem_cons]
    constructor
    · rintro (⟨t2, ht2, hp⟩ | (hp | hacc))
      · exact Or.inl ⟨t2, Or.inr ht2, hp⟩
      · exact Or.inl ⟨t, Or.inl rfl, hp⟩
      · exact Or.inr hacc
    · rintro (⟨t2, rfl | ht2, hp⟩ | hacc)
      · exact Or.inr (Or.inl hp)
      · exact Or.inl ⟨t2, ht2, hp⟩
      · exact Or.inr (Or.inr hacc)

/-- The scored documents are exactly the candidates. -/
theorem accHas_bm25Scores (s : BM25State) (qts : List String) (d : ℕ) :
    accHas (bm25Scores s qts) d ↔ bm25Candidate s qts d := by
  rw [bm25Scores, accHas_scores_fold]
  simp [accHas, bm25Candidate]

/-- The keys after an `addScore`: unchanged when present, appended when
new. -/
theorem addScore_ids (d : ℕ) (t : String) (v : ℝ) (l : List BM25Result) :
    (addScore d t v l).map (fun e => e.id) =
      if d ∈ l.map (fun e => e.id) then l.map (fun e => e.id)
      else l.map (fun e => e.id) ++ [d] := by
  induction l with
  | nil => simp [addScore]
  | cons e rest ih =>
    simp only [addScore]
    by_cases h : e.id = d
    · rw [if_pos h]
      simp [h]
    · rw [if_neg h]
      simp only [List.map_cons, ih]
      have hdne : d ≠ e.id := fun he => h he.symm
      have hcond : (d ∈ e.id :: rest.map fun e => e.id) ↔ (d ∈ rest.map fun e => e.id) := by
        constructor
        · intro hmem
          rcases List.mem_cons.mp hmem with h3 | h3
          · exact absurd h3 hdne
          · exact h3
        · exact fun h3 => List.mem_cons_of_mem _ h3
      by_cases h2 : d ∈ rest.map fun e => e.id
      · simp [h2, hcond]
      · simp [h2, hcond]

/-- `addScore` keeps accumulator keys duplicate-free. -/
theorem addScore_ids_nodup (d : ℕ) (t : String) (v : ℝ) (l : List BM25Result)
    (h : (l.map (fun e => e.id)).Nodup) : ((addScore d t v l).map (fun e => e.id)).Nodup := by
  rw [addScore_ids]
  by_cases h2 : d ∈ l.map fun e => e.id
  · simpa [h2]
  · rw [if_neg h2, ← List.concat_eq_append]
    exact List.Nodup.concat h2 h

/-- Posting-list folds keep accumulator keys duplicate-free. -/
theorem postings_fold_ids_nodup (t : String) (C : ℕ → ℕ → ℝ) :
    ∀ (postings : List (ℕ × ℕ)) (acc : List BM25Result),
      (acc.map (fun e => e.id)).Nodup →
      ((postings.foldl (fun a p => addScore p.1 t (C p.1 p.2) a) acc).map
        (fun e => e.id)).Nodup := by
  intro postings
  induction postings with
  | nil => intro acc h; simpa
  | cons p rest ih =>
    intro acc h
    rw [List.foldl_cons]
    exact ih _ (addScore_ids_nodup p.1 t (C p.1 p.2) acc h)

/-- The full scoring fold produces duplicate-free document keys. -/
theorem bm25Scores_ids_nodup (s : BM25State) (qts : List String) :
    ((bm25Scores s qts).map (fun e => e.id)).Nodup := by
  rw [bm25Scores]
  have key : ∀ (l : List String) (acc : List BM25Result),
      (acc.map (fun e => e.id)).Nodup →
      ((l.foldl (bm25TermStep s) acc).map (fun e => e.id)).Nodup := by
    intro l
    induction l with
    | nil => intro acc h; simpa
    | cons t rest ih =>
      intro acc h
      rw [List.foldl_cons]
      apply ih
      by_cases he : s.inverted_index t = []
      · simpa [bm25TermStep, he]
      · rw [bm25TermStep, if_neg he]
        exact postings_fold_ids_nodup t (bm25Contrib s t) (s.inverted_index t) acc h
  exact key qts [] (by simp)

/-- In a duplicate-free accumulator the running score of a member's id is
that member's score. -/
theorem accScore_mem (l : List BM25Result) (hnd : (l.map (fun e => e.id)).Nodup)
    (e : BM25Result) (he : e ∈ l) : accScore l e.id = e.score := by
  induction l with
  | nil => simp at he
  | cons f rest ih =>
    rw [List.map_cons] at hnd
    rcases List.mem_cons.mp he with rfl | h2
    · simp [accScore]
    · have hne : f.id ≠ e.id := by
        intro hEq
        exact (List.nodup_cons.mp hnd).1 (hEq ▸ List.mem_map_of_mem _ h2)
      rw [accScore, if_neg hne]
      exact ih hnd.of_cons h2

/-- Folding the document-frequency update of `add_document` over a
duplicate-free term list with positive counts bumps exactly the listed
terms by one. -/
theorem df_fold_increment (cnt : String → ℕ) (t : String) (l : List String) :
    (∀ x ∈ l, 0 < cnt x) → l.Nodup → ∀ f : String → ℕ,
    (l.foldl (fun g x => fun u => if 0 < cnt x ∧ u = x then g u + 1 else g u) f) t =
      f t + (if t ∈ l then 1 else 0) := by
  induction l with
  | nil => intro _ _ f; simp
  | cons x rest ih =>
    intro hpos hnd f
    have hnd2 := (List.nodup_cons.mp hnd).2
    have hx_notin := (List.nodup_cons.mp hnd).1
    have hpos2 : ∀ y ∈ rest, 0 < cnt y := fun y hy => hpos y (List.mem_cons_of_mem _ hy)
    rw [List.foldl_cons, ih hpos2 hnd2]
    by_cases hxt : t = x
    · subst hxt
      simp [hx_notin, hpos t (List.mem_cons_self t rest)]
    · simp [hxt]

/-- C8: a successful `add_document` raises the document frequency of
every term occurring in the processed content by exactly one and leaves
every other term's document frequency unchanged. -/
theorem add_document_df_increment (s : BM25State) (id : ℕ) (content : String) (t : String)
    (h : (add_document s id content).2 = Except.ok ()) :
    (add_document s id content).1.document_frequency t =
      s.document_frequency t + (if t ∈ process_text content s.config then 1 else 0) := by
  by_cases hdup : (s.documents.lookup id).isSome
  · exfalso
    simp [add_document, hdup] at h
  · by_cases hterms : process_text content s.config = []
    · exfalso
      simp [add_document, hdup, hterms] at h
    · have hfold := df_fold_increment (fun x => (process_text content s.config).count x) t
        (process_text content s.config).dedup
        (fun x hx => List.count_pos_iff.mpr (List.mem_dedup.mp hx))
        (List.nodup_dedup _) s.document_frequency
    -- reduce add_document to its success branch and read off the df field
      simp only [add_document, hdup, Bool.false_eq_true, if_false, hterms, if_neg hterms]
      simpa [List.mem_dedup] using hfold

/-- Witness for the C8 theorem: adding "Gold prices" (processed to
["gold", "price"]) to the empty engine takes df("gold") from 0 to 1. -/
theorem add_document_df_increment_witness :
    (add_document exBM25Empty 1 "Gold prices").2 = Except.ok () ∧
    (add_document exBM25Empty 1 "Gold prices").1.document_frequency "gold" =
      exBM25Empty.document_frequency "gold" +
        (if "gold" ∈ process_text "Gold prices" exBM25Empty.config then 1 else 0) := by
  have h : (add_document exBM25Empty 1 "Gold prices").2 = Except.ok () := rfl
  exact ⟨h, add_document_df_increment exBM25Empty 1 "Gold prices" "gold" h⟩

/-- C10: when the processed content is empty, `add_document` errs (with
the duplicate check still taking precedence) and the state is unchanged;
and on a non-empty index, a query whose processed term list is empty
makes `search` err rather than return an empty list. -/
theorem bm25_empty_terms_errors :
    (∀ (s : BM25State) (id : ℕ) (content : String),
        process_text content s.config = [] →
        (add_document s id content).1 = s ∧
        (add_document s id content).2 =
          Except.error (if (s.documents.lookup id).isSome then "Document already exists"
                        else "No valid terms in document"))
    ∧ (∀ (s : BM25State) (query : String) (k : ℕ) (min_score : ℝ),
        s.total_documents ≠ 0 → process_text query s.config = [] →
        bm25_search s query k min_score = Except.error "No valid terms in query") := by
  constructor
  · intro s id content hpt
    by_cases hdup : (s.documents.lookup id).isSome
    · constructor <;> simp [add_document, hdup]
    · constructor <;> simp [add_document, hdup, hpt]
  · intro s query k min_score hN hq
    simp [bm25_search, hN, hq]

/-- Witness for the C10 theorem: "to be" processes to no terms (both
tokens are stop words), so adding it to the one-document engine fails
without change and searching for it errs. -/
theorem bm25_empty_terms_errors_witness :
    (process_text "to be" exBM25One.config = [] ∧ exBM25One.total_documents ≠ 0) ∧
    (add_document exBM25One 2 "to be").1 = exBM25One ∧
    bm25_search exBM25One "to be" 5 0 = Except.error "No valid terms in query" := by
  have h1 : process_text "to be" exBM25One.config = [] := by decide
  exact ⟨⟨h1, by decide⟩,
    (bm25_empty_terms_errors.1 exBM25One 2 "to be" h1).1,
    bm25_empty_terms_errors.2 exBM25One "to be" 5 0 (by decide) h1⟩

/-- C4: on a well-formed non-empty index queried with at least one
processed term, `search` returns, of the candidate documents (those
matching some indexed query term), exactly those whose BM25 score — the
sum over query terms t with df(t) > 0 of
idf(t)·tf·(k1+1)/(tf + k1·(1 − b + b·len(d)/avgLen)) with
idf(t) = ln((N − df + 0.5)/(df + 0.5) + 1) — reaches `min_score`, sorted
descending by score with ties broken by ascending id and truncated to the
k best: at most k results, each carrying its specification score; every
qualifying candidate is either returned or exactly k results are, none
ranking below any qualifying candidate left out. -/
theorem bm25_search_spec (s : BM25State) (query : String) (k : ℕ) (min_score : ℝ)
    (hwf : BM25WF s) (hN : s.total_documents ≠ 0)
    (hq : process_text query s.config ≠ []) :
    ∃ L, bm25_search s query k min_score = Except.ok L ∧
      L.length ≤ k ∧
      List.Sorted bm25Le L ∧
      (∀ r ∈ L, r.score = bm25SpecScore s (process_text query s.config) r.id ∧
        min_score ≤ r.score ∧ bm25Candidate s (process_text query s.config) r.id) ∧
      (∀ d, bm25Candidate s (process_text query s.config) d →
        min_score ≤ bm25SpecScore s (process_text query s.config) d →
        (∃ r ∈ L, r.id = d) ∨ L.length = k) ∧
      (∀ r ∈ L, ∀ d, bm25Candidate s (process_text query s.config) d →
        min_score ≤ bm25SpecScore s (process_text query s.config) d →
        (∀ rL ∈ L, rL.id ≠ d) →
        bm25Le r { id := d, score := bm25SpecScore s (process_text query s.config) d,
                   matched_terms := [] }) := by
  classical
  set qts := process_text query s.config with hqts
  set scores := bm25Scores s qts with hscores
  set results := scores.filter (fun e => decide (min_score ≤ e.score)) with hresults
  set sorted := List.insertionSort bm25Le results with hsorted_def
  have hnd_scores : (scores.map (fun e => e.id)).Nodup := bm25Scores_ids_nodup s qts
  have hspec : ∀ d, accScore scores d = bm25SpecScore s qts d :=
    fun d => accScore_bm25Scores s hwf qts d
  have hsorted : List.Sorted bm25Le sorted := List.sorted_insertionSort bm25Le results
  have hperm : sorted.Perm results := List.perm_insertionSort bm25Le results
  have hmem_results : ∀ {r : BM25Result}, r ∈ results → r ∈ scores ∧ min_score ≤ r.score := by
    intro r hr
    have h2 := List.mem_filter.mp hr
    exact ⟨h2.1, of_decide_eq_true h2.2⟩
  have hmem_L : ∀ {r : BM25Result}, r ∈ sorted.take k → r ∈ scores ∧ min_score ≤ r.score :=
    fun hr => hmem_results (hperm.subset (List.take_subset k sorted hr))
  have hrs : ∀ {r : BM25Result}, r ∈ scores → r.score = bm25SpecScore s qts r.id := by
    intro r hr
    rw [← hspec r.id]
    exact (accScore_mem scores hnd_scores r hr).symm
  refine ⟨sorted.take k, ?_, ?_, ?_, ?_, ?_, ?_⟩
  · rw [bm25_search, if_neg hN]
    rw [← hqts]
    rw [if_neg hq]
  · simp [List.length_take]
  · exact List.Pairwise.sublist (List.take_sublist k sorted) hsorted
  · intro r hr
    obtain ⟨hrsc, hrmin⟩ := hmem_L hr
    exact ⟨hrs hrsc, hrmin, (accHas_bm25Scores s qts r.id).mp ⟨r, hrsc, rfl⟩⟩
  · intro d hc hmin
    obtain ⟨e, he_mem, he_id⟩ := (accHas_bm25Scores s qts d).mpr hc
    have he_score : e.score = bm25SpecScore s qts d := by rw [hrs he_mem, he_id]
    have he_results : e ∈ results :=
      List.mem_filter.mpr ⟨he_mem, decide_eq_true (he_score ▸ hmin)⟩
    have he_sorted : e ∈ sorted := hperm.mem_iff.mpr he_results
    by_cases hlen : (sorted.take k).length = k
    · exact Or.inr hlen
    · left
      have hlt : sorted.length < k := by
        rw [List.length_take] at hlen
        omega
      have htk : sorted.take k = sorted := List.take_of_length_le (le_of_lt hlt)
      exact ⟨e, by rw [htk]; exact he_sorted, he_id⟩
  · intro r hr d hc hmin hids
    obtain ⟨e, he_mem, he_id⟩ := (accHas_bm25Scores s qts d).mpr hc
    have he_score : e.score = bm25SpecScore s qts d := by rw [hrs he_mem, he_id]
    have he_results : e ∈ results :=
      List.mem_filter.mpr ⟨he_mem, decide_eq_true (he_score ▸ hmin)⟩
    have he_sorted : e ∈ sorted := hperm.mem_iff.mpr he_results
    have he_not_take : e ∉ sorted.take k := fun hin => hids e hin he_id
    have he_drop : e ∈ sorted.drop k := by
      have h2 : e ∈ sorted.take k ++ sorted.drop k := by
        rw [List.take_append_drop]
        exact he_sorted
      rcases List.mem_append.mp h2 with h3 | h3
      · exact absurd h3 he_not_take
      · exact h3
    have hpw : List.Pairwise bm25Le (sorted.take k ++ sorted.drop k) := by
      rw [List.take_append_drop]
      exact hsorted
    have hle := (List.pairwise_append.mp hpw).2.2 r hr e he_drop
    simp only [bm25Le] at hle ⊢
    rw [he_id, he_score] at hle
    simpa using hle

/-- Witness for the C4 theorem on the one-document engine `exBM25One`
queried for "gold" with k = 1 and min_score = 0. -/
theorem bm25_search_spec_witness :
    (BM25WF exBM25One ∧ exBM25One.total_documents ≠ 0 ∧
      process_text "gold" exBM25One.config ≠ []) ∧
    (∃ L, bm25_search exBM25One "gold" 1 0 = Except.ok L ∧ L.length ≤ 1) := by
  have hwf : BM25WF exBM25One := by
    refine ⟨?_, ?_⟩
    · intro t
      by_cases h : t = "gold" <;> simp [exBM25One, h]
    · intro t
      by_cases h : t = "gold" <;> simp [exBM25One, h]
  have hN : exBM25One.total_documents ≠ 0 := by decide
  have hq : process_text "gold" exBM25One.config ≠ [] := by decide
  obtain ⟨L, h1, h2, _⟩ := bm25_search_spec exBM25One "gold" 1 0 hwf hN hq
  exact ⟨⟨hwf, hN, hq⟩, L, h1, h2⟩

/-- C1: evaluation of `FlatIndex::search` on the one-dimensional
dot-product index `exFlat`, whose stored vectors lie at distances
5, 3, 4, 1 from the query [-1].  With k = 2 the search returns the ids
at distances 5 and 1 — not the two smallest distances 1 and 3 — and in
descending distance order: the `std::greater` comparator turns the queue
into a min-heap while the replacement test and the final reverse assume
a max-heap.  The second conjunct confirms the dropped vector [3] sits at
distance 3, strictly closer than the returned distance 5. -/
theorem flat_search_min_heap_inversion :
    (flat_search exFlat [-1] 2).map (fun r => (r.id, r.distance)) = [(11, 5), (14, 1)]
    ∧ flatDist DistanceType.DotProduct [-1] [3] = 3 := by
  constructor
  · norm_num [flat_search, exFlat, List.range_succ, flatDist, dot_product, flatHeapStep, pqPush]
  · norm_num [flatDist, dot_product]

end VDB
